import Mathlib

/-!
Verification of the profit_tracker financial core: a shallow embedding of
`src/models.rs`, `src/logic.rs`, `src/csv_processor.rs` and the weekly-window
logic of `src/app.rs`, together with theorems settling the frozen claims.

Modelling conventions:
* Rust `f64` monetary amounts are modelled as `ℚ` (exact arithmetic); the one
  place where IEEE semantics is essential (division by a zero share count) is
  additionally modelled by the `F64` type and `ieeeDiv` below.
* Rust `i32`/`i64` are modelled as `Int`; Rust `/` on integers truncates
  toward zero, which is `Int.tdiv` here.
* `time::Date` is modelled as a count of days since 1970-01-01 (the crate
  stores an equivalent linear day count); calendar construction uses the
  standard civil-from-days correspondence in `daysFromCivil`.
* Reads of the ambient clock (`OffsetDateTime::now_local().date()`) are
  modelled by an explicit `today : Date` parameter threaded to the functions
  that perform the read.
-/

namespace ProfitTracker

/-- Calendar date, as days since the epoch 1970-01-01 (proleptic Gregorian). -/
structure Date where
  days : Int
deriving DecidableEq, Repr

instance : LE Date := ⟨fun a b => a.days ≤ b.days⟩

instance : LT Date := ⟨fun a b => a.days < b.days⟩

instance (a b : Date) : Decidable (a ≤ b) :=
  inferInstanceAs (Decidable (a.days ≤ b.days))

instance (a b : Date) : Decidable (a < b) :=
  inferInstanceAs (Decidable (a.days < b.days))

/-- Days since 1970-01-01 of the civil date `y-m-d` (Howard Hinnant's
`days_from_civil` algorithm, all divisions on nonnegative quantities). -/
def daysFromCivil (y : Int) (m : Int) (d : Int) : Int :=
  let ys := if m ≤ 2 then y - 1 else y
  let era := Int.fdiv ys 400
  let yoe := ys - era * 400
  let mp := if m > 2 then m - 3 else m + 9
  let doy := Int.ediv (153 * mp + 2) 5 + d - 1
  let doe := yoe * 365 + Int.ediv yoe 4 - Int.ediv yoe 100 + doy
  era * 146097 + doe - 719468

/-- Whether `y` is a leap year in the proleptic Gregorian calendar. -/
def isLeapYear (y : Int) : Bool :=
  y % 4 = 0 && (y % 100 ≠ 0 || y % 400 = 0)

/-- Number of days of month `m` (1-12) in year `y`. -/
def daysInMonth (y : Int) (m : Int) : Int :=
  if m = 2 then (if isLeapYear y then 29 else 28)
  else if m = 4 ∨ m = 6 ∨ m = 9 ∨ m = 11 then 30
  else 31

/-- Rust `time::Date::from_calendar_date`: `none` on an invalid calendar date
(month out of 1-12, day out of range, or year outside the crate's default
±9999 range). -/
def Date.fromCalendarDate (y : Int) (m : Int) (d : Int) : Option Date :=
  if -9999 ≤ y ∧ y ≤ 9999 ∧ 1 ≤ m ∧ m ≤ 12 ∧ 1 ≤ d ∧ d ≤ daysInMonth y m then
    some ⟨daysFromCivil y m d⟩
  else
    none

/-- Rust `Weekday::number_from_monday`: Monday ↦ 1, …, Sunday ↦ 7.
1970-01-01 (day 0) was a Thursday, hence the +3 offset. -/
def Date.numberFromMonday (d : Date) : Int :=
  (d.days + 3).emod 7 + 1

/-- Rust's `/` on signed integers (truncation toward zero). -/
def rustDiv (a b : Int) : Int := Int.tdiv a b

-- ---------------------------------------------------------------------------
-- String utilities (embeddings of the `str` methods used by the source).
-- ---------------------------------------------------------------------------

/-- Rust `str::trim_matches(c)`: strip leading and trailing occurrences of `c`. -/
def trimMatchesChar (c : Char) (l : List Char) : List Char :=
  ((l.dropWhile (· = c)).reverse.dropWhile (· = c)).reverse

/-- Rust `str::trim`: strip leading and trailing whitespace. -/
def trimChars (l : List Char) : List Char :=
  ((l.dropWhile Char.isWhitespace).reverse.dropWhile Char.isWhitespace).reverse

/-- Remove every occurrence of the characters in `cs` (the source's chained
single-character `String::replace(pat, "")` calls). -/
def removeChars (cs : List Char) (l : List Char) : List Char :=
  l.filter (fun c => ¬ cs.contains c)

/-- Helper for `splitWhitespace`: `acc` holds the current word reversed. -/
def splitWsAux : List Char → List Char → List (List Char)
  | [], acc => if acc.isEmpty then [] else [acc.reverse]
  | c :: rest, acc =>
    if c.isWhitespace then
      if acc.isEmpty then splitWsAux rest []
      else acc.reverse :: splitWsAux rest []
    else splitWsAux rest (c :: acc)

/-- Rust `str::split_whitespace`: maximal runs of non-whitespace characters. -/
def splitWhitespace (l : List Char) : List (List Char) :=
  splitWsAux l []

/-- Helper for `splitOnChar`: `acc` holds the current piece reversed. -/
def splitOnCharAux (sep : Char) : List Char → List Char → List (List Char)
  | [], acc => [acc.reverse]
  | c :: rest, acc =>
    if c = sep then acc.reverse :: splitOnCharAux sep rest []
    else splitOnCharAux sep rest (c :: acc)

/-- Rust `str::split(sep)` collected to a list (keeps empty pieces). -/
def splitOnChar (sep : Char) (l : List Char) : List (List Char) :=
  splitOnCharAux sep l []

/-- Accumulating helper for `parseDigits`. -/
def parseDigitsAux : List Char → Nat → Option Nat
  | [], acc => some acc
  | c :: rest, acc =>
    if c.isDigit then parseDigitsAux rest (acc * 10 + (c.toNat - 48))
    else none

/-- Digits of `l` as a number, `none` if `l` is empty or has a non-digit. -/
def parseDigits : List Char → Option Nat
  | [] => none
  | l => parseDigitsAux l 0

/-- Rust `str::parse::<i32>`: optional sign, then decimal digits, whole
string consumed, value within the `i32` range. -/
def parseI32 (l : List Char) : Option Int :=
  let core : List Char → Bool → Option Int := fun ds neg =>
    match parseDigits ds with
    | none => none
    | some n =>
      let v : Int := if neg then -(n : Int) else (n : Int)
      if -2147483648 ≤ v ∧ v ≤ 2147483647 then some v else none
  match l with
  | '+' :: rest => core rest false
  | '-' :: rest => core rest true
  | _ => core l false

/-- Rust `str::parse::<u8>`: optional `+`, digits, value ≤ 255. -/
def parseU8 (l : List Char) : Option Nat :=
  let core : List Char → Option Nat := fun ds =>
    match parseDigits ds with
    | none => none
    | some n => if n ≤ 255 then some n else none
  match l with
  | '+' :: rest => core rest
  | _ => core l

/-- Rust `str::parse::<u16>`: optional `+`, digits, value ≤ 65535. -/
def parseU16 (l : List Char) : Option Nat :=
  let core : List Char → Option Nat := fun ds =>
    match parseDigits ds with
    | none => none
    | some n => if n ≤ 65535 then some n else none
  match l with
  | '+' :: rest => core rest
  | _ => core l

/-- Decidable decimal representation: sign, integer part, fractional part
value, and fractional digit count. -/
structure DecimalRep where
  neg : Bool
  intPart : Nat
  fracPart : Nat
  fracDigits : Nat
deriving DecidableEq, Repr

/-- Parse the decimal forms accepted by Rust `str::parse::<f64>` that the
source's inputs use: optional sign, digits, optional `.` and digits, with at
least one digit overall (`"15"`, `"6.500"`, `"270.00"`, `".5"`, `"1."`).
Exponent, `inf` and `NaN` forms are not produced by the broker fields the
claims quantify over and are omitted. -/
def parseDecimalCore (l : List Char) (neg : Bool) : Option DecimalRep :=
  match splitOnChar '.' l with
  | [ds] =>
    match parseDigits ds with
    | some n => some ⟨neg, n, 0, 0⟩
    | none => none
  | [ds, fs] =>
    if ds.isEmpty then
      match parseDigits fs with
      | some f => some ⟨neg, 0, f, fs.length⟩
      | none => none
    else if fs.isEmpty then
      match parseDigits ds with
      | some n => some ⟨neg, n, 0, 0⟩
      | none => none
    else
      match parseDigits ds, parseDigits fs with
      | some n, some f => some ⟨neg, n, f, fs.length⟩
      | _, _ => none
  | _ => none

/-- Sign handling for `parseDecimal`. -/
def parseDecimal (l : List Char) : Option DecimalRep :=
  match l with
  | '+' :: rest => parseDecimalCore rest false
  | '-' :: rest => parseDecimalCore rest true
  | _ => parseDecimalCore l false

/-- The rational value of a decimal representation. -/
def DecimalRep.toRat (r : DecimalRep) : ℚ :=
  let mag : ℚ := (r.intPart : ℚ) + (r.fracPart : ℚ) / ((10 : ℚ) ^ r.fracDigits)
  if r.neg then -mag else mag

/-- Rust `str::parse::<f64>` under the `ℚ` model of `f64`. -/
def parseF64 (l : List Char) : Option ℚ :=
  (parseDecimal l).map DecimalRep.toRat

-- ---------------------------------------------------------------------------
-- A minimal IEEE-754 view of `f64` for the one unguarded division.
-- ---------------------------------------------------------------------------

/-- An `f64` value: finite (modelled exactly), an infinity, or NaN. -/
inductive F64 where
  | finite (q : ℚ)
  | inf
  | negInf
  | nan
deriving DecidableEq, Repr

/-- IEEE-754 division of two finite `f64` values (rounding of finite results
elided, as everywhere in the `ℚ` model): division by zero gives ±∞ for a
nonzero dividend and NaN for `0.0 / 0.0`. -/
def ieeeDiv (a b : ℚ) : F64 :=
  if b = 0 then
    if a > 0 then F64.inf else if a < 0 then F64.negInf else F64.nan
  else
    F64.finite (a / b)

/-- Whether an `f64` value is finite. -/
def F64.isFinite : F64 → Bool
  | .finite _ => true
  | _ => false

-- ---------------------------------------------------------------------------
-- src/models.rs: the data model.
-- ---------------------------------------------------------------------------

/-- Source `models::Action`: the closed set of trade actions. -/
inductive Action where
  | BuyPut
  | SellPut
  | BuyCall
  | SellCall
  | Exercised
  | Assigned
deriving DecidableEq, Repr

/-- Source `models::OptionTrade`: one option transaction. -/
structure OptionTrade where
  id : Option Int
  symbol : String
  campaign : String
  action : Action
  strike : ℚ
  delta : ℚ
  expiration_date : Date
  date_of_action : Date
  number_of_shares : Int
  credit : ℚ
deriving DecidableEq, Repr

-- ---------------------------------------------------------------------------
-- src/logic.rs: campaign summary.
-- ---------------------------------------------------------------------------

/-- The per-trade premium `credit * number_of_shares`. -/
def tradePremium (t : OptionTrade) : ℚ :=
  t.credit * (t.number_of_shares : ℚ)

/-- Accumulator `total_debits` in `calculate_campaign_summary`: Σ `credit * shares` over
Assigned/BuyCall/BuyPut trades. -/
def total_debits (trades : List OptionTrade) : ℚ :=
  ((trades.filter fun t =>
      t.action = Action.Assigned ∨ t.action = Action.BuyCall ∨
        t.action = Action.BuyPut).map tradePremium).sum

/-- Accumulator `total_credits` in `calculate_campaign_summary`: Σ `credit * shares` over
SellPut/SellCall trades. -/
def total_credits (trades : List OptionTrade) : ℚ :=
  ((trades.filter fun t =>
      t.action = Action.SellPut ∨ t.action = Action.SellCall).map
    tradePremium).sum

/-- Accumulator `total_shares_assigned`: Σ `number_of_shares` over Assigned trades. -/
def total_shares_assigned (trades : List OptionTrade) : Int :=
  ((trades.filter fun t => t.action = Action.Assigned).map
    (·.number_of_shares)).sum

/-- Derived `running_profit_loss = total_credits - total_debits`. -/
def running_profit_loss (trades : List OptionTrade) : ℚ :=
  total_credits trades - total_debits trades

/-- The filter of the `last_open_put` search: SellPut trades with no Assigned
trade sharing the same `(symbol, strike, expiration_date)`. -/
def isOpenPut (trades : List OptionTrade) (t : OptionTrade) : Bool :=
  t.action = Action.SellPut ∧
    ¬ trades.any fun other =>
      other.action = Action.Assigned ∧ other.symbol = t.symbol ∧
        other.strike = t.strike ∧ other.expiration_date = t.expiration_date

/-- Rust `Iterator::max_by` keyed on `date_of_action`: of several maximal
elements the last one is kept. -/
def maxByDateOfAction (l : List OptionTrade) : Option OptionTrade :=
  l.foldl
    (fun acc t =>
      match acc with
      | none => some t
      | some a => if t.date_of_action < a.date_of_action then some a else some t)
    none

/-- Rust `Iterator::min`: of several minimal elements the first one is kept. -/
def minDateOfAction (l : List OptionTrade) : Option Date :=
  (l.map (·.date_of_action)).foldl
    (fun acc d =>
      match acc with
      | none => some d
      | some m => if d < m then some d else some m)
    none

/-- The five derived values returned by `calculate_campaign_summary`, with
the tuple components named as at the call sites. -/
structure CampaignSummary where
  break_even : Option ℚ
  weeks_running : Int
  profit_per_week : Option ℚ
  total_credits : ℚ
  running_profit_loss : ℚ
deriving DecidableEq, Repr

/-- Source `logic::calculate_campaign_summary`. The source reads the ambient clock
(`OffsetDateTime::now_local().unwrap().date()`) for the weeks-running
calculation; that read is modelled by the explicit `today` parameter. -/
def calculate_campaign_summary (trades : List OptionTrade)
    (target_exit_price : Option ℚ) (today : Date) : CampaignSummary :=
  let debits := total_debits trades
  let credits := total_credits trades
  let sharesAssigned := total_shares_assigned trades
  let lastOpenPut := maxByDateOfAction (trades.filter (isOpenPut trades))
  let rpl := credits - debits
  let breakEven : Option ℚ :=
    match lastOpenPut with
    | some lastPut =>
      if lastPut.number_of_shares > 0 then
        some (lastPut.strike - rpl / (lastPut.number_of_shares : ℚ))
      else
        some lastPut.strike
    | none =>
      if sharesAssigned > 0 then
        some ((debits - credits) / (sharesAssigned : ℚ))
      else
        none
  let weeksRunning : Int :=
    match minDateOfAction trades with
    | some firstDate => rustDiv (today.days - firstDate.days) 7
    | none => 0
  let profitPerWeek : Option ℚ :=
    match target_exit_price with
    | some targetPrice =>
      if sharesAssigned > 0 ∧ weeksRunning > 0 then
        some ((targetPrice - breakEven.getD 0) * (sharesAssigned : ℚ) /
          (weeksRunning : ℚ))
      else
        none
    | none => none
  { break_even := breakEven
    weeks_running := weeksRunning
    profit_per_week := profitPerWeek
    total_credits := credits
    running_profit_loss := rpl }

-- ---------------------------------------------------------------------------
-- src/logic.rs: total net premium over contract groups.
-- ---------------------------------------------------------------------------

/-- Append `t` to the group of key `k`, keeping first-insertion key order (the
source's `HashMap::entry(key).or_default().push(trade)`; hash iteration order
is arbitrary, which is immaterial because group sums are added commutatively). -/
def insertGrouped {K : Type} [DecidableEq K] (k : K) (t : OptionTrade) :
    List (K × List OptionTrade) → List (K × List OptionTrade)
  | [] => [(k, [t])]
  | (k₂, g) :: gs =>
    if k₂ = k then (k₂, g ++ [t]) :: gs else (k₂, g) :: insertGrouped k t gs

/-- Partition `trades` by the key function `κ` (the source's grouping loop). -/
def groupByKey {K : Type} [DecidableEq K] (κ : OptionTrade → K)
    (trades : List OptionTrade) : List (K × List OptionTrade) :=
  trades.foldl (fun gs t => insertGrouped (κ t) t gs) []

/-- The source's `format!("{}_{}_{}", symbol, strike, expiration_date)` string
key. The textual renderings of the strike (`f64` `Display`) and of the date
differ from Rust's in form only; `groupTotal_eq_sum_signedPremium` below shows
the aggregate is the same for every key function, so the rendering (and any
formatting collision) cannot affect the result. -/
def contractKey (t : OptionTrade) : String :=
  t.symbol ++ "_" ++ toString t.strike ++ "_" ++ toString t.expiration_date.days

/-- The `sold_premium` accumulator of the per-group loop. -/
def soldPremium (g : List OptionTrade) : ℚ :=
  g.foldl
    (fun acc t =>
      match t.action with
      | Action.SellPut | Action.SellCall => acc + tradePremium t
      | _ => acc)
    0

/-- The `bought_premium` accumulator of the per-group loop. -/
def boughtPremium (g : List OptionTrade) : ℚ :=
  g.foldl
    (fun acc t =>
      match t.action with
      | Action.BuyPut | Action.BuyCall => acc + tradePremium t
      | _ => acc)
    0

/-- The group-total accumulation loop of `calculate_total_premium_sold`,
generalised over the grouping key. -/
def groupTotal {K : Type} [DecidableEq K] (κ : OptionTrade → K)
    (trades : List OptionTrade) : ℚ :=
  (groupByKey κ trades).foldl
    (fun acc g => acc + (soldPremium g.2 - boughtPremium g.2)) 0

/-- Source `logic::calculate_total_premium_sold`: group by the string contract key,
net sold against bought premium in each group, and sum the group nets. -/
def calculate_total_premium_sold (trades : List OptionTrade) : ℚ :=
  groupTotal contractKey trades

-- ---------------------------------------------------------------------------
-- src/app.rs: the Monday-Sunday week window.
-- ---------------------------------------------------------------------------

/-- Source expression `today - Duration::days(today.weekday().number_from_monday() - 1)`. -/
def startOfWeek (today : Date) : Date :=
  ⟨today.days - (today.numberFromMonday - 1)⟩

/-- Source expression `start_of_week + Duration::days(6)`. -/
def endOfWeek (today : Date) : Date :=
  ⟨(startOfWeek today).days + 6⟩

/-- Source `App::trades_in_progress_this_week`: trades whose expiration date lies in
the inclusive window `[start_of_week, end_of_week]`. The source reads the
ambient clock for `today`; that read is the explicit parameter here. -/
def trades_in_progress_this_week (today : Date) (trades : List OptionTrade) :
    List OptionTrade :=
  trades.filter fun t =>
    startOfWeek today ≤ t.expiration_date ∧ t.expiration_date ≤ endOfWeek today

/-- Modelled from the spec: `logic::calculate_weekly_premium` is invoked from
the UI (`ui/summary.rs`, `ui/campaign_select.rs`, `ui/campaign_dashboard.rs`)
as `crate::logic::calculate_weekly_premium` but the function itself is absent
from `src/logic.rs`; per the spec it sums `credit × shares` for every trade
whose `expiration_date` falls within the current Monday-Sunday week (Monday
computed from the ISO weekday number, inclusive 7-day window). -/
def calculate_weekly_premium (today : Date) (trades : List OptionTrade) : ℚ :=
  ((trades.filter fun t =>
      startOfWeek today ≤ t.expiration_date ∧
        t.expiration_date ≤ endOfWeek today).map tradePremium).sum

-- ---------------------------------------------------------------------------
-- src/csv_processor.rs: date-format parsing.
-- ---------------------------------------------------------------------------

/-- Consume exactly two digit characters. -/
def take2Digits : List Char → Option (Nat × List Char)
  | a :: b :: rest =>
    if a.isDigit ∧ b.isDigit then
      some ((a.toNat - 48) * 10 + (b.toNat - 48), rest)
    else none
  | _ => none

/-- Consume exactly four digit characters. -/
def take4Digits : List Char → Option (Nat × List Char)
  | a :: b :: c :: d :: rest =>
    if a.isDigit ∧ b.isDigit ∧ c.isDigit ∧ d.isDigit then
      some
        (((a.toNat - 48) * 10 + (b.toNat - 48)) * 100 +
          ((c.toNat - 48) * 10 + (d.toNat - 48)), rest)
    else none
  | _ => none

/-- Consume one expected literal character. -/
def expectChar (c : Char) : List Char → Option (List Char)
  | a :: rest => if a = c then some rest else none
  | _ => none

/-- Rust `time::Date::parse` with the E*TRADE format description
`"[month]/[day]/[year] [hour]:[minute]:[second] [period]"`: zero-padded
components of fixed width (month, day, hour, minute, second two digits;
year four digits), then `AM`/`PM`; the whole input must be consumed and
only the calendar-date components feed the resulting `Date`.  A two-digit
year such as `"07/03/25 10:00:00 AM"` therefore fails to parse. -/
def parseEtradeDateTime (l : List Char) : Option Date := do
  let (mo, r1) ← take2Digits l
  let r2 ← expectChar '/' r1
  let (dy, r3) ← take2Digits r2
  let r4 ← expectChar '/' r3
  let (yr, r5) ← take4Digits r4
  let r6 ← expectChar ' ' r5
  let (_, r7) ← take2Digits r6
  let r8 ← expectChar ':' r7
  let (_, r9) ← take2Digits r8
  let r10 ← expectChar ':' r9
  let (_, r11) ← take2Digits r10
  let r12 ← expectChar ' ' r11
  match r12 with
  | 'A' :: 'M' :: [] => Date.fromCalendarDate (yr : Int) (mo : Int) (dy : Int)
  | 'P' :: 'M' :: [] => Date.fromCalendarDate (yr : Int) (mo : Int) (dy : Int)
  | _ => none

/-- One item of a `time` format description: a literal character or a
calendar component (each component zero-padded, of fixed width). -/
inductive FmtItem where
  | lit (c : Char)
  | month
  | day
  | year
deriving DecidableEq, Repr

/-- Run a format description over the input, accumulating the parsed
year/month/day components; the whole input must be consumed. -/
def runFmt : List FmtItem → List Char → Option Nat → Option Nat → Option Nat →
    Option (Option Nat × Option Nat × Option Nat)
  | [], [], y, m, d => some (y, m, d)
  | [], _ :: _, _, _, _ => none
  | FmtItem.lit c :: items, input, y, m, d =>
    match input with
    | a :: rest => if a = c then runFmt items rest y m d else none
    | [] => none
  | FmtItem.month :: items, input, y, _, d =>
    match take2Digits input with
    | some (v, rest) =>
      if 1 ≤ v ∧ v ≤ 12 then runFmt items rest y (some v) d else none
    | none => none
  | FmtItem.day :: items, input, y, m, _ =>
    match take2Digits input with
    | some (v, rest) =>
      if 1 ≤ v ∧ v ≤ 31 then runFmt items rest y m (some v) else none
    | none => none
  | FmtItem.year :: items, input, _, m, d =>
    match take4Digits input with
    | some (v, rest) => runFmt items rest (some v) m d
    | none => none

/-- Rust `time::Date::parse` with an arbitrary format description: succeeds only
when the format supplied all of year, month and day and they form a valid
calendar date. -/
def parseDateWithFmt (items : List FmtItem) (l : List Char) : Option Date :=
  match runFmt items l none none none with
  | some (some y, some m, some d) => Date.fromCalendarDate (y : Int) (m : Int) (d : Int)
  | _ => none

/-- The format the Robinhood path actually constructs:
`format_description!("%m/%d/%Y")`.  The `time` crate's format-description
syntax has no `%` escapes — components are written in square brackets and
everything else is literal text — so this format consists of the eight
literal characters `%m/%d/%Y` and contains no date components at all. -/
def robinhoodDateFmt : List FmtItem :=
  (("%m/%d/%Y").data.map FmtItem.lit)

/-- The format the Robinhood grammar comment and the spec intend:
`[month]/[day]/[year]`. -/
def intendedRobinhoodFmt : List FmtItem :=
  [FmtItem.month, FmtItem.lit '/', FmtItem.day, FmtItem.lit '/', FmtItem.year]

-- ---------------------------------------------------------------------------
-- src/csv_processor.rs: the Robinhood option-description regex.
-- ---------------------------------------------------------------------------

/-- Regex `\w`: word character (ASCII view of the source's Unicode class; the
ticker symbols and dates the rows carry are ASCII). -/
def isWordChar (c : Char) : Bool :=
  c.isAlphanum || c = '_'

/-- The captures of the option-description regex
`(?P<symbol>\w+) (?P<exp>\d{1,2}/\d{1,2}/\d{4}) (?P<type>Call|Put) \$(?P<strike>[\d.]+)`.
The `type` group can only be `Call` or `Put`; it is stored as `isCall`. -/
structure RegexCaps where
  symbol : String
  expStr : String
  isCall : Bool
  strikeStr : String
deriving DecidableEq, Repr

/-- Pattern `\d{1,2}` immediately followed by the literal `sep` (greedy with
backtracking: two digits are preferred, one digit is the fallback). -/
def matchD12sep (sep : Char) : List Char → Option (List Char × List Char)
  | [] => none
  | a :: rest =>
    if a.isDigit then
      match rest with
      | [] => none
      | b :: rest₂ =>
        if b.isDigit then
          match rest₂ with
          | c :: rest₃ => if c = sep then some ([a, b], rest₃) else none
          | [] => none
        else if b = sep then some ([a], rest₂) else none
    else none

/-- Pattern `\d{4}` immediately followed by the literal `sep`. -/
def match4DigitsSep (sep : Char) : List Char → Option (List Char × List Char)
  | a :: b :: c :: d :: e :: rest =>
    if a.isDigit ∧ b.isDigit ∧ c.isDigit ∧ d.isDigit ∧ e = sep then
      some ([a, b, c, d], rest)
    else none
  | _ => none

/-- Consume an exact literal string. -/
def dropLiteral : List Char → List Char → Option (List Char)
  | [], l => some l
  | _ :: _, [] => none
  | p :: ps, a :: rest => if a = p then dropLiteral ps rest else none

/-- Attempt the option-description regex anchored at the head of `l`. -/
def matchAt (l : List Char) : Option RegexCaps :=
  let sym := l.takeWhile isWordChar
  if sym.isEmpty then none
  else
    match l.dropWhile isWordChar with
    | ' ' :: r1 =>
      match matchD12sep '/' r1 with
      | some (mm, r2) =>
        match matchD12sep '/' r2 with
        | some (dd, r3) =>
          match match4DigitsSep ' ' r3 with
          | some (yy, r4) =>
            let tryType : Option (Bool × List Char) :=
              match dropLiteral (("Call").data) r4 with
              | some r5 => some (true, r5)
              | none =>
                match dropLiteral (("Put").data) r4 with
                | some r5 => some (false, r5)
                | none => none
            match tryType with
            | some (isCall, r5) =>
              match r5 with
              | ' ' :: '$' :: r6 =>
                let strike := r6.takeWhile fun c => c.isDigit || c = '.'
                if strike.isEmpty then none
                else
                  some
                    { symbol := ⟨sym⟩
                      expStr := ⟨mm ++ '/' :: dd ++ '/' :: yy⟩
                      isCall := isCall
                      strikeStr := ⟨strike⟩ }
              | _ => none
            | none => none
          | none => none
        | none => none
      | none => none
    | _ => none

/-- Rust `Regex::captures`: the leftmost position where the pattern matches. -/
def scanMatch : List Char → Option RegexCaps
  | [] => none
  | a :: rest =>
    match matchAt (a :: rest) with
    | some caps => some caps
    | none => scanMatch rest

/-- The option-description regex applied to a description column. -/
def matchOptionDesc (s : String) : Option RegexCaps :=
  scanMatch s.data

-- ---------------------------------------------------------------------------
-- src/csv_processor.rs: the two broker grammars.
-- ---------------------------------------------------------------------------

/-- The E*TRADE `(transaction verb, option type) → action` mapping table. -/
def actionEtrade (typeStr optionType : String) : Option Action :=
  match typeStr, optionType with
  | "Sold", "Put" => some Action.SellPut
  | "Sold", "Call" => some Action.SellCall
  | "Bought", "Put" => some Action.BuyPut
  | "Bought", "Call" => some Action.BuyCall
  | "Sold Short", "Put" => some Action.SellPut
  | "Sold Short", "Call" => some Action.SellCall
  | "Bought To Cover", "Put" => some Action.BuyPut
  | "Bought To Cover", "Call" => some Action.BuyCall
  | _, _ => none

/-- The E*TRADE signed amount: column 7 with `$`, `,`, `(`, `)` removed,
negated when the raw column contains `(`. -/
def etradeAmount (r7 : String) : ℚ :=
  let cleaned := removeChars (("$,()").data) r7.data
  if r7.data.contains '(' then -((parseF64 cleaned).getD 0)
  else (parseF64 cleaned).getD 0

/-- The E*TRADE expiration date: `MM/DD/YY` split on `/`, each numeric field
defaulting on parse failure (month/day to 1, year to 0), two-digit years
mapped into 20xx, an out-of-range month degrading to January
(`Month::try_from(..).unwrap_or(January)`), and any invalid calendar date
falling back to `today`. -/
def etradeExpiration (today : Date) (expStr : List Char) : Date :=
  let expParts := splitOnChar '/' expStr
  if expParts.length = 3 then
    let month : Nat := (parseU8 (expParts.getD 0 [])).getD 1
    let day : Nat := (parseU8 (expParts.getD 1 [])).getD 1
    let year₀ : Nat := (parseU16 (expParts.getD 2 [])).getD 0
    let year : Int := if year₀ < 100 then 2000 + (year₀ : Int) else (year₀ : Int)
    let monthClamped : Int := if 1 ≤ month ∧ month ≤ 12 then (month : Int) else 1
    (Date.fromCalendarDate year monthClamped (day : Int)).getD today
  else today

/-- One record of `process_etrade_csv`'s loop (a record already decoded by
the `csv` reader, so the quoting of the raw line is gone): `none` exactly
when the source hits a `continue` or falls through without pushing a trade.
Rows shorter than 8 columns are skipped; the description is split on
whitespace and must have ≥ 6 parts with `Put`/`Call` second; the ambient
clock read (`now_local`, used when a date fails to parse) is `today`. -/
def processEtradeRow (today : Date) (record : List String) : Option OptionTrade :=
  match record with
  | r0 :: r1 :: _ :: _ :: r4 :: _ :: _ :: r7 :: _ =>
    let dateStr := trimChars (trimMatchesChar '"' r0.data)
    let typeStr : String := ⟨trimChars (trimMatchesChar '"' r1.data)⟩
    let description := trimChars (trimMatchesChar '"' r4.data)
    let amount := etradeAmount r7
    let parts := splitWhitespace description
    if 6 ≤ parts.length ∧
        (parts.getD 1 [] = ("Put").data ∨ parts.getD 1 [] = ("Call").data) then
      let qty : Int := (parseI32 (parts.getD 0 [])).getD 0
      let optionType : String := ⟨parts.getD 1 []⟩
      let symbol : String := ⟨parts.getD 2 []⟩
      let strike : ℚ := (parseF64 (parts.getD 4 [])).getD 0
      let expirationDate := etradeExpiration today (parts.getD 3 [])
      let dateOfAction := (parseEtradeDateTime dateStr).getD today
      match actionEtrade typeStr optionType with
      | some action =>
        some
          { id := none
            symbol := symbol
            campaign := symbol
            action := action
            strike := strike
            delta := 0
            expiration_date := expirationDate
            date_of_action := dateOfAction
            number_of_shares := qty * 100
            credit := amount / ((qty : ℚ) * 100) }
      | none => none
    else none
  | _ => none

/-- Source `process_etrade_csv` over the reader's record sequence. -/
def processEtradeRows (today : Date) (rows : List (List String)) :
    List OptionTrade :=
  rows.filterMap (processEtradeRow today)

/-- The Robinhood `(transaction code, option type) → action` mapping table;
`OASGN` maps to `Assigned` for either option type. -/
def actionRobinhood (transCode optionType : String) : Option Action :=
  match transCode, optionType with
  | "BTO", "Call" => some Action.BuyCall
  | "BTO", "Put" => some Action.BuyPut
  | "STO", "Call" => some Action.SellCall
  | "STO", "Put" => some Action.SellPut
  | "BTC", "Call" => some Action.BuyCall
  | "BTC", "Put" => some Action.BuyPut
  | "STC", "Call" => some Action.SellCall
  | "STC", "Put" => some Action.SellPut
  | "OASGN", _ => some Action.Assigned
  | _, _ => none

/-- The Robinhood signed amount: the magnitude comes from column 7 with `$`,
`,`, `(`, `)` removed, while the parenthesised-negative test reads column 8
(as in the source). -/
def robinhoodAmount (r7 r8 : String) : ℚ :=
  let cleaned := removeChars (("$,()").data) r7.data
  if r8.data.contains '(' then -((parseF64 cleaned).getD 0)
  else (parseF64 cleaned).getD 0

/-- One record of `process_robinhood_csv`'s loop: rows shorter than 9 columns
are skipped, the description must match the option regex, the quantity column
(with `,` removed) defaults to 0 on parse failure, and both dates are parsed
with the `%m/%d/%Y` literal format (falling back to `today`, the ambient
clock read). -/
def processRobinhoodRow (today : Date) (record : List String) :
    Option OptionTrade :=
  match record with
  | r0 :: _ :: _ :: _ :: r4 :: r5 :: r6 :: r7 :: r8 :: _ =>
    let quantity : Int := (parseI32 (removeChars [','] r6.data)).getD 0
    let amount := robinhoodAmount r7 r8
    match matchOptionDesc r4 with
    | some caps =>
      let optionType : String := if caps.isCall then ("Call") else ("Put")
      let strike : ℚ := (parseF64 caps.strikeStr.data).getD 0
      let expirationDate :=
        (parseDateWithFmt robinhoodDateFmt caps.expStr.data).getD today
      let dateOfAction :=
        (parseDateWithFmt robinhoodDateFmt r0.data).getD today
      match actionRobinhood r5 optionType with
      | some action =>
        some
          { id := none
            symbol := caps.symbol
            campaign := caps.symbol ++ "_" ++ toString expirationDate.days
            action := action
            strike := strike
            delta := 0
            expiration_date := expirationDate
            date_of_action := dateOfAction
            number_of_shares := quantity * 100
            credit := amount / ((quantity : ℚ) * 100) }
      | none => none
    | none => none
  | _ => none

/-- Source `process_robinhood_csv` over the reader's record sequence. -/
def processRobinhoodRows (today : Date) (rows : List (List String)) :
    List OptionTrade :=
  rows.filterMap (processRobinhoodRow today)

-- ---------------------------------------------------------------------------
-- Concrete evaluation checks of the embedding.
-- ---------------------------------------------------------------------------
example : (⟨0⟩ : Date).numberFromMonday = 4 := by decide
example : daysFromCivil 1970 1 1 = 0 := by decide
example : daysFromCivil 2025 7 3 = 20272 := by decide
example : Date.fromCalendarDate 2025 7 3 = some ⟨20272⟩ := by decide
example : splitWhitespace ("15 Put NVTS".data) = ["15".data, "Put".data, "NVTS".data] := by decide
example : parseI32 ("15".data) = some 15 := by decide
example : parseI32 ("x".data) = none := by decide
example : parseDecimal ("270.00".data) = some ⟨false, 270, 0, 2⟩ := by decide
example : parseDecimal ("6.500".data) = some ⟨false, 6, 500, 3⟩ := by decide
example : DecimalRep.toRat ⟨false, 6, 500, 3⟩ = 13 / 2 := by norm_num [DecimalRep.toRat]

example :
    matchOptionDesc ("AMD 10/18/2024 Put $150.00") =
      some ⟨"AMD", "10/18/2024", false, "150.00"⟩ := by decide

example : parseDateWithFmt intendedRobinhoodFmt (("10/18/2024").data) =
    some ⟨daysFromCivil 2024 10 18⟩ := by decide

example : parseDateWithFmt robinhoodDateFmt (("10/18/2024").data) = none := by decide

example : parseEtradeDateTime (("07/03/25 10:00:00 AM").data) = none := by decide

example : parseEtradeDateTime (("07/03/2025 10:00:00 AM").data) =
    some ⟨daysFromCivil 2025 7 3⟩ := by decide

example :
    (processEtradeRow ⟨0⟩
        ["07/03/25 10:00:00 AM", "Sold", "", "",
          "15 Put NVTS 07/03/25 6.500 @ $0.18", "", "", "$270.00"]).map
      (·.number_of_shares) = some 1500 := by decide

-- ---------------------------------------------------------------------------
-- Reference (spec-side) definitions for the premium aggregation claims.
-- ---------------------------------------------------------------------------

/-- The composite contract key as the spec words it: the tuple
`(symbol, strike, expiration_date)`. -/
def tupleKey (t : OptionTrade) : String × ℚ × Date :=
  (t.symbol, t.strike, t.expiration_date)

/-- Sold premium of a group as the spec words it: the sum of
`credit × number_of_shares` over the SellPut/SellCall trades of the group. -/
def soldOfGroup (g : List OptionTrade) : ℚ :=
  ((g.filter fun t =>
      t.action = Action.SellPut ∨ t.action = Action.SellCall).map
    tradePremium).sum

/-- Bought premium of a group as the spec words it: the sum of
`credit × number_of_shares` over the BuyPut/BuyCall trades of the group. -/
def boughtOfGroup (g : List OptionTrade) : ℚ :=
  ((g.filter fun t =>
      t.action = Action.BuyPut ∨ t.action = Action.BuyCall).map
    tradePremium).sum

/-- Total net premium as the spec words it: partition by the composite
`(symbol, strike, expiration_date)` key and sum `sold − bought` over the
groups. -/
def total_premium_spec (trades : List OptionTrade) : ℚ :=
  ((groupByKey tupleKey trades).map fun g =>
    soldOfGroup g.2 - boughtOfGroup g.2).sum

/-- The sold-side contribution of a single trade. -/
def soldContrib (t : OptionTrade) : ℚ :=
  match t.action with
  | Action.SellPut | Action.SellCall => tradePremium t
  | _ => 0

/-- The bought-side contribution of a single trade. -/
def boughtContrib (t : OptionTrade) : ℚ :=
  match t.action with
  | Action.BuyPut | Action.BuyCall => tradePremium t
  | _ => 0

/-- The signed net contribution of a single trade to the total premium. -/
def signedPremium (t : OptionTrade) : ℚ :=
  soldContrib t - boughtContrib t

-- ---------------------------------------------------------------------------
-- Summation lemmas.
-- ---------------------------------------------------------------------------

theorem foldl_add_map_sum {α : Type} (f : α → ℚ) :
    ∀ (l : List α) (a : ℚ),
      l.foldl (fun acc t => acc + f t) a = a + (l.map f).sum := by
  intro l
  induction l with
  | nil => intro a; simp
  | cons h tl ih => intro a; simp [ih, add_assoc]

theorem sum_map_sub {α : Type} (f g : α → ℚ) (l : List α) :
    (l.map fun x => f x - g x).sum = (l.map f).sum - (l.map g).sum := by
  induction l with
  | nil => simp
  | cons h tl ih => simp [ih]; ring

theorem sum_map_filter_eq {α : Type} (p : α → Bool) (f : α → ℚ)
    (l : List α) (hzero : ∀ x, p x = false → f x = 0) :
    ((l.filter p).map f).sum = (l.map f).sum := by
  induction l with
  | nil => simp
  | cons h tl ih =>
    by_cases hp : p h
    · simp [List.filter_cons, hp, ih]
    · have hf := hzero h (by simpa using hp)
      simp [List.filter_cons, hp, ih, hf]

theorem sum_map_filter_ite {α : Type} (p : α → Bool) (f : α → ℚ)
    (l : List α) :
    ((l.filter p).map f).sum = (l.map fun x => if p x then f x else 0).sum := by
  induction l with
  | nil => simp
  | cons h tl ih =>
    by_cases hp : p h
    · simp [List.filter_cons, hp, ih]
    · simp [List.filter_cons, hp, ih]

theorem soldPremium_eq_sum (g : List OptionTrade) :
    soldPremium g = (g.map soldContrib).sum := by
  have hstep :
      (fun (acc : ℚ) (t : OptionTrade) =>
          match t.action with
          | Action.SellPut | Action.SellCall => acc + tradePremium t
          | _ => acc) =
        fun acc t => acc + soldContrib t := by
    funext acc t
    cases h : t.action <;> simp [soldContrib, h]
  rw [soldPremium, hstep, foldl_add_map_sum]
  simp

theorem boughtPremium_eq_sum (g : List OptionTrade) :
    boughtPremium g = (g.map boughtContrib).sum := by
  have hstep :
      (fun (acc : ℚ) (t : OptionTrade) =>
          match t.action with
          | Action.BuyPut | Action.BuyCall => acc + tradePremium t
          | _ => acc) =
        fun acc t => acc + boughtContrib t := by
    funext acc t
    cases h : t.action <;> simp [boughtContrib, h]
  rw [boughtPremium, hstep, foldl_add_map_sum]
  simp

theorem sold_sub_bought_eq_signed (g : List OptionTrade) :
    soldPremium g - boughtPremium g = (g.map signedPremium).sum := by
  rw [soldPremium_eq_sum, boughtPremium_eq_sum]
  rw [show (List.map signedPremium g) =
      g.map fun t => soldContrib t - boughtContrib t from rfl]
  rw [sum_map_sub]

/-- The sum of `f` over every trade of every group. -/
def groupsSum {K : Type} (f : OptionTrade → ℚ)
    (gs : List (K × List OptionTrade)) : ℚ :=
  (gs.map fun g => (g.2.map f).sum).sum

theorem groupsSum_insertGrouped {K : Type} [DecidableEq K]
    (f : OptionTrade → ℚ) (k : K) (t : OptionTrade) :
    ∀ gs : List (K × List OptionTrade),
      groupsSum f (insertGrouped k t gs) = groupsSum f gs + f t := by
  intro gs
  induction gs with
  | nil => simp [insertGrouped, groupsSum]
  | cons g rest ih =>
    by_cases hk : g.1 = k
    · simp [insertGrouped, hk, groupsSum]
      ring
    · cases g with
      | mk k₂ grp =>
        simp only [insertGrouped, if_neg hk, groupsSum, List.map_cons,
          List.sum_cons] at ih ⊢
        rw [ih]
        ring

theorem groupsSum_foldl {K : Type} [DecidableEq K] (f : OptionTrade → ℚ)
    (κ : OptionTrade → K) :
    ∀ (l : List OptionTrade) (gs : List (K × List OptionTrade)),
      groupsSum f (l.foldl (fun acc t => insertGrouped (κ t) t acc) gs) =
        groupsSum f gs + (l.map f).sum := by
  intro l
  induction l with
  | nil => intro gs; simp
  | cons h tl ih =>
    intro gs
    simp only [List.foldl_cons, List.map_cons, List.sum_cons]
    rw [ih, groupsSum_insertGrouped]
    ring

theorem groupsSum_groupByKey {K : Type} [DecidableEq K] (f : OptionTrade → ℚ)
    (κ : OptionTrade → K) (l : List OptionTrade) :
    groupsSum f (groupByKey κ l) = (l.map f).sum := by
  rw [groupByKey, groupsSum_foldl]
  simp [groupsSum]

/-- The group-total loop equals the flat sum of signed per-trade
contributions, for every grouping key function: the grouping structure (and
hence any string-formatting collision in the key) cannot change the total. -/
theorem groupTotal_eq_sum_signedPremium {K : Type} [DecidableEq K]
    (κ : OptionTrade → K) (l : List OptionTrade) :
    groupTotal κ l = (l.map signedPremium).sum := by
  rw [groupTotal,
    foldl_add_map_sum (fun g : K × List OptionTrade =>
      soldPremium g.2 - boughtPremium g.2)]
  rw [zero_add]
  have : ((groupByKey κ l).map fun g =>
      soldPremium g.2 - boughtPremium g.2) =
      (groupByKey κ l).map fun g => (g.2.map signedPremium).sum := by
    apply List.map_congr_left
    intro g _
    exact sold_sub_bought_eq_signed g.2
  rw [this]
  exact groupsSum_groupByKey signedPremium κ l

theorem soldOfGroup_eq_sum (g : List OptionTrade) :
    soldOfGroup g = (g.map soldContrib).sum := by
  rw [soldOfGroup,
    sum_map_filter_ite (fun t =>
      t.action = Action.SellPut ∨ t.action = Action.SellCall) tradePremium]
  congr 1
  apply List.map_congr_left
  intro t _
  cases h : t.action <;> simp [soldContrib, h]

theorem boughtOfGroup_eq_sum (g : List OptionTrade) :
    boughtOfGroup g = (g.map boughtContrib).sum := by
  rw [boughtOfGroup,
    sum_map_filter_ite (fun t =>
      t.action = Action.BuyPut ∨ t.action = Action.BuyCall) tradePremium]
  congr 1
  apply List.map_congr_left
  intro t _
  cases h : t.action <;> simp [boughtContrib, h]

theorem total_premium_spec_eq_sum (l : List OptionTrade) :
    total_premium_spec l = (l.map signedPremium).sum := by
  rw [total_premium_spec]
  have : ((groupByKey tupleKey l).map fun g =>
      soldOfGroup g.2 - boughtOfGroup g.2) =
      (groupByKey tupleKey l).map fun g => (g.2.map signedPremium).sum := by
    apply List.map_congr_left
    intro g _
    rw [soldOfGroup_eq_sum, boughtOfGroup_eq_sum, ← sum_map_sub]
    rfl
  rw [this]
  exact groupsSum_groupByKey signedPremium tupleKey l

theorem calculate_total_premium_sold_eq_sum (l : List OptionTrade) :
    calculate_total_premium_sold l = (l.map signedPremium).sum :=
  groupTotal_eq_sum_signedPremium contractKey l

/-- Keep predicate for C5: the trade is not a lifecycle (Exercised/Assigned)
event. -/
def notLifecycle (t : OptionTrade) : Bool :=
  t.action ≠ Action.Exercised && t.action ≠ Action.Assigned

/-- Concrete sample: an open short put. -/
def sampleSellPut : OptionTrade :=
  { id := none
    symbol := "AAA"
    campaign := "AAA"
    action := Action.SellPut
    strike := 100
    delta := 0
    expiration_date := ⟨30⟩
    date_of_action := ⟨0⟩
    number_of_shares := 100
    credit := 2 }

/-- Concrete sample: a bought call on another contract line. -/
def sampleBuyCall : OptionTrade :=
  { id := none
    symbol := "BBB"
    campaign := "BBB"
    action := Action.BuyCall
    strike := 50
    delta := 0
    expiration_date := ⟨10⟩
    date_of_action := ⟨5⟩
    number_of_shares := 200
    credit := 1 }

/-- Concrete sample: an assignment lifecycle event. -/
def sampleAssigned : OptionTrade :=
  { id := none
    symbol := "AAA"
    campaign := "AAA"
    action := Action.Assigned
    strike := 100
    delta := 0
    expiration_date := ⟨30⟩
    date_of_action := ⟨2⟩
    number_of_shares := 100
    credit := 100 }

/-- C1: for every list of trades, `calculate_total_premium_sold` returns the
sum over `(symbol, strike, expiration_date)` groups of (sold premium − bought
premium), where sold sums `credit × number_of_shares` over SellPut/SellCall
trades of the group and bought sums the same product over BuyPut/BuyCall
trades; and for every permutation of the input list the result is
unchanged. -/
theorem claim_C1 (trades trades₂ : List OptionTrade)
    (hperm : trades.Perm trades₂) :
    calculate_total_premium_sold trades = total_premium_spec trades ∧
      calculate_total_premium_sold trades₂ =
        calculate_total_premium_sold trades := by
  constructor
  · rw [calculate_total_premium_sold_eq_sum, total_premium_spec_eq_sum]
  · rw [calculate_total_premium_sold_eq_sum,
      calculate_total_premium_sold_eq_sum]
    exact (List.Perm.sum_eq (hperm.map signedPremium)).symm

/-- Witness for C1 at a concrete two-trade list and its swap. -/
theorem claim_C1_witness :
    calculate_total_premium_sold [sampleSellPut, sampleBuyCall] =
        total_premium_spec [sampleSellPut, sampleBuyCall] ∧
      calculate_total_premium_sold [sampleBuyCall, sampleSellPut] =
        calculate_total_premium_sold [sampleSellPut, sampleBuyCall] :=
  claim_C1 [sampleSellPut, sampleBuyCall] [sampleBuyCall, sampleSellPut]
    (by decide)

/-- C5: a trade whose action is Exercised or Assigned contributes zero to
both the sold and the bought accumulator of its contract group, and removing
all such trades leaves the total net premium unchanged. -/
theorem claim_C5 :
    (∀ (g : List OptionTrade) (t : OptionTrade),
        t.action = Action.Exercised ∨ t.action = Action.Assigned →
          soldPremium (g ++ [t]) = soldPremium g ∧
            boughtPremium (g ++ [t]) = boughtPremium g) ∧
      ∀ l : List OptionTrade,
        calculate_total_premium_sold (l.filter notLifecycle) =
          calculate_total_premium_sold l := by
  constructor
  · intro g t ht
    have hsold : soldContrib t = 0 := by
      rcases ht with h | h <;> simp [soldContrib, h]
    have hbought : boughtContrib t = 0 := by
      rcases ht with h | h <;> simp [boughtContrib, h]
    constructor
    · rw [soldPremium_eq_sum, soldPremium_eq_sum]
      simp [hsold]
    · rw [boughtPremium_eq_sum, boughtPremium_eq_sum]
      simp [hbought]
  · intro l
    rw [calculate_total_premium_sold_eq_sum,
      calculate_total_premium_sold_eq_sum]
    apply sum_map_filter_eq
    intro t ht
    have : t.action = Action.Exercised ∨ t.action = Action.Assigned := by
      revert ht
      cases h : t.action <;> simp [notLifecycle, h]
    rcases this with h | h <;>
      simp [signedPremium, soldContrib, boughtContrib, h]

/-- Witness for C5 at a concrete lifecycle trade. -/
theorem claim_C5_witness :
    soldPremium ([] ++ [sampleAssigned]) = soldPremium [] ∧
      boughtPremium ([] ++ [sampleAssigned]) = boughtPremium [] :=
  claim_C5.1 [] sampleAssigned (Or.inr rfl)

theorem Date.le_def (a b : Date) : a ≤ b ↔ a.days ≤ b.days := Iff.rfl

theorem Date.lt_def (a b : Date) : a < b ↔ a.days < b.days := Iff.rfl

theorem dle_refl (a : Date) : a ≤ a := by
  rw [Date.le_def]

theorem dle_trans {a b c : Date} (h₁ : a ≤ b) (h₂ : b ≤ c) : a ≤ c := by
  rw [Date.le_def] at h₁ h₂ ⊢
  omega

theorem dle_of_lt {a b : Date} (h : a < b) : a ≤ b := by
  rw [Date.lt_def] at h
  rw [Date.le_def]
  omega

theorem dle_of_not_lt {a b : Date} (h : ¬ a < b) : b ≤ a := by
  rw [Date.lt_def] at h
  rw [Date.le_def]
  omega

theorem maxByDateOfAction_aux :
    ∀ (l : List OptionTrade) (a : OptionTrade),
      ∃ p,
        l.foldl
            (fun acc t =>
              match acc with
              | none => some t
              | some b =>
                if t.date_of_action < b.date_of_action then some b else some t)
            (some a) = some p ∧
          (p = a ∨ p ∈ l) ∧ a.date_of_action ≤ p.date_of_action ∧
          ∀ q ∈ l, q.date_of_action ≤ p.date_of_action := by
  intro l
  induction l with
  | nil => intro a; exact ⟨a, rfl, Or.inl rfl, dle_refl _, by simp⟩
  | cons h tl ih =>
    intro a
    by_cases hlt : h.date_of_action < a.date_of_action
    · obtain ⟨p, hfold, hmem, hle, hmax⟩ := ih a
      refine ⟨p, ?_, ?_, hle, ?_⟩
      · simpa [hlt] using hfold
      · rcases hmem with rfl | hp
        · exact Or.inl rfl
        · exact Or.inr (List.mem_cons_of_mem _ hp)
      · intro q hq
        rcases List.mem_cons.mp hq with rfl | hq₂
        · exact dle_trans (dle_of_lt hlt) hle
        · exact hmax q hq₂
    · obtain ⟨p, hfold, hmem, hle, hmax⟩ := ih h
      refine ⟨p, ?_, ?_, ?_, ?_⟩
      · simpa [hlt] using hfold
      · rcases hmem with rfl | hp
        · exact Or.inr (List.mem_cons_self _ _)
        · exact Or.inr (List.mem_cons_of_mem _ hp)
      · exact dle_trans (dle_of_not_lt hlt) hle
      · intro q hq
        rcases List.mem_cons.mp hq with rfl | hq₂
        · exact hle
        · exact hmax q hq₂

/-- Rust `Iterator::max_by` on `date_of_action` returns an element of the list
that has a maximal `date_of_action`, whenever the list is nonempty. -/
theorem maxByDateOfAction_spec (l : List OptionTrade) (hne : l ≠ []) :
    ∃ p, maxByDateOfAction l = some p ∧ p ∈ l ∧
      ∀ q ∈ l, q.date_of_action ≤ p.date_of_action := by
  match l, hne with
  | h :: tl, _ =>
    obtain ⟨p, hfold, hmem, hleh, hmax⟩ := maxByDateOfAction_aux tl h
    refine ⟨p, ?_, ?_, ?_⟩
    · simpa [maxByDateOfAction] using hfold
    · rcases hmem with rfl | hp
      · exact List.mem_cons_self _ _
      · exact List.mem_cons_of_mem _ hp
    · intro q hq
      rcases List.mem_cons.mp hq with rfl | hq₂
      · exact hleh
      · exact hmax q hq₂

/-- The `break_even` field, unfolded (definitional). -/
theorem break_even_unfold (trades : List OptionTrade) (target : Option ℚ)
    (today : Date) :
    (calculate_campaign_summary trades target today).break_even =
      match maxByDateOfAction (trades.filter (isOpenPut trades)) with
      | some lastPut =>
        if lastPut.number_of_shares > 0 then
          some (lastPut.strike -
            (total_credits trades - total_debits trades) /
              (lastPut.number_of_shares : ℚ))
        else some lastPut.strike
      | none =>
        if total_shares_assigned trades > 0 then
          some ((total_debits trades - total_credits trades) /
            (total_shares_assigned trades : ℚ))
        else none := rfl

/-- Value of `break_even` when the open-put search found a last open put. -/
theorem break_even_of_some (trades : List OptionTrade) (target : Option ℚ)
    (today : Date) (p : OptionTrade)
    (h : maxByDateOfAction (trades.filter (isOpenPut trades)) = some p) :
    (calculate_campaign_summary trades target today).break_even =
      if 0 < p.number_of_shares then
        some (p.strike -
          (total_credits trades - total_debits trades) /
            (p.number_of_shares : ℚ))
      else some p.strike := by
  rw [break_even_unfold, h]

/-- Value of `break_even` when there is no open put. -/
theorem break_even_of_none (trades : List OptionTrade) (target : Option ℚ)
    (today : Date)
    (h : maxByDateOfAction (trades.filter (isOpenPut trades)) = none) :
    (calculate_campaign_summary trades target today).break_even =
      if 0 < total_shares_assigned trades then
        some ((total_debits trades - total_credits trades) /
          (total_shares_assigned trades : ℚ))
      else none := by
  rw [break_even_unfold, h]

/-- C2 (amended): the open-put branch of the break-even computation selects a
SellPut with no matching Assigned trade that carries a maximal
`date_of_action`, and subtracts the per-share running P&L from its strike
when its share count is positive, degrading to the raw strike when the share
count is not positive (the claim as frozen said "equal 0"); with no open put
it falls back to `(total_debits − total_credits) / total_shares_assigned`
when assigned shares are positive and to no value otherwise. -/
theorem claim_C2 (trades : List OptionTrade) (target : Option ℚ)
    (today : Date) :
    (trades.filter (isOpenPut trades) ≠ [] →
        ∃ p ∈ trades.filter (isOpenPut trades),
          (∀ q ∈ trades.filter (isOpenPut trades),
              q.date_of_action ≤ p.date_of_action) ∧
            (calculate_campaign_summary trades target today).break_even =
              some (if 0 < p.number_of_shares then
                  p.strike -
                    running_profit_loss trades / (p.number_of_shares : ℚ)
                else p.strike)) ∧
      (trades.filter (isOpenPut trades) = [] →
        (0 < total_shares_assigned trades →
            (calculate_campaign_summary trades target today).break_even =
              some ((total_debits trades - total_credits trades) /
                (total_shares_assigned trades : ℚ))) ∧
          (total_shares_assigned trades ≤ 0 →
            (calculate_campaign_summary trades target today).break_even =
              none)) := by
  constructor
  · intro hne
    obtain ⟨p, hsome, hmem, hmax⟩ :=
      maxByDateOfAction_spec (trades.filter (isOpenPut trades)) hne
    refine ⟨p, hmem, hmax, ?_⟩
    rw [break_even_of_some trades target today p hsome]
    by_cases hs : 0 < p.number_of_shares
    · rw [if_pos hs, if_pos hs]
      rfl
    · rw [if_neg hs, if_neg hs]
  · intro hempty
    have hnone :
        maxByDateOfAction (trades.filter (isOpenPut trades)) = none := by
      rw [hempty]
      rfl
    constructor
    · intro hpos
      rw [break_even_of_none trades target today hnone, if_pos hpos]
    · intro hnonpos
      have hneg : ¬ 0 < total_shares_assigned trades := by omega
      rw [break_even_of_none trades target today hnone, if_neg hneg]

/-- A short put with a negative share count (the data model's share count is
a signed integer). -/
def negSharesSellPut : OptionTrade :=
  { id := none
    symbol := "CCC"
    campaign := "CCC"
    action := Action.SellPut
    strike := 50
    delta := 0
    expiration_date := ⟨30⟩
    date_of_action := ⟨0⟩
    number_of_shares := -100
    credit := 1 }

/-- Counterexample to C2 as frozen: for an open put with a negative share
count the code returns the raw strike (50), while the claimed formula
`strike − running_profit_loss / shares` gives 49. -/
theorem claim_C2_counterexample :
    (calculate_campaign_summary [negSharesSellPut] none ⟨0⟩).break_even =
        some 50 ∧
      negSharesSellPut.strike -
          running_profit_loss [negSharesSellPut] /
            (negSharesSellPut.number_of_shares : ℚ) = 49 ∧
      some (50 : ℚ) ≠ some (49 : ℚ) := by
  refine ⟨rfl, ?_, by decide⟩
  have hrpl : running_profit_loss [negSharesSellPut] = -100 := by
    have h₁ :
        [negSharesSellPut].filter (fun t =>
          t.action = Action.SellPut ∨ t.action = Action.SellCall) =
          [negSharesSellPut] := by decide
    have h₂ :
        [negSharesSellPut].filter (fun t =>
          t.action = Action.Assigned ∨ t.action = Action.BuyCall ∨
            t.action = Action.BuyPut) = [] := by decide
    rw [running_profit_loss, total_credits, total_debits, h₁, h₂]
    norm_num [tradePremium, negSharesSellPut]
  rw [hrpl]
  norm_num [negSharesSellPut]

/-- Witness for C2 at the spec's own scenario: one open SellPut with
strike 100, 100 shares, credit 2 gives break-even 98. -/
theorem claim_C2_witness :
    (calculate_campaign_summary [sampleSellPut] none ⟨0⟩).break_even =
      some 98 := by
  have h := (claim_C2 [sampleSellPut] none ⟨0⟩).1 (by decide)
  obtain ⟨p, hmem, _, heq⟩ := h
  have hfilter :
      [sampleSellPut].filter (isOpenPut [sampleSellPut]) = [sampleSellPut] :=
    by decide
  rw [hfilter] at hmem
  have hp : p = sampleSellPut := List.mem_singleton.mp hmem
  subst hp
  rw [heq]
  have hrpl : running_profit_loss [sampleSellPut] = 200 := by
    have h₁ :
        [sampleSellPut].filter (fun t =>
          t.action = Action.SellPut ∨ t.action = Action.SellCall) =
          [sampleSellPut] := by decide
    have h₂ :
        [sampleSellPut].filter (fun t =>
          t.action = Action.Assigned ∨ t.action = Action.BuyCall ∨
            t.action = Action.BuyPut) = [] := by decide
    rw [running_profit_loss, total_credits, total_debits, h₁, h₂]
    norm_num [tradePremium, sampleSellPut]
  rw [hrpl]
  norm_num [sampleSellPut]

theorem minFold_aux :
    ∀ (l : List Date) (a : Date),
      ∃ m,
        l.foldl
            (fun acc d =>
              match acc with
              | none => some d
              | some b => if d < b then some d else some b)
            (some a) = some m ∧
          (m = a ∨ m ∈ l) ∧ m ≤ a ∧ ∀ q ∈ l, m ≤ q := by
  intro l
  induction l with
  | nil => intro a; exact ⟨a, rfl, Or.inl rfl, dle_refl _, by simp⟩
  | cons d tl ih =>
    intro a
    by_cases hlt : d < a
    · obtain ⟨m, hfold, hmem, hle, hmin⟩ := ih d
      refine ⟨m, ?_, ?_, ?_, ?_⟩
      · simpa [hlt] using hfold
      · rcases hmem with rfl | hp
        · exact Or.inr (List.mem_cons_self _ _)
        · exact Or.inr (List.mem_cons_of_mem _ hp)
      · exact dle_trans hle (dle_of_lt hlt)
      · intro q hq
        rcases List.mem_cons.mp hq with rfl | hq₂
        · exact hle
        · exact hmin q hq₂
    · obtain ⟨m, hfold, hmem, hle, hmin⟩ := ih a
      refine ⟨m, ?_, ?_, hle, ?_⟩
      · simpa [hlt] using hfold
      · rcases hmem with rfl | hp
        · exact Or.inl rfl
        · exact Or.inr (List.mem_cons_of_mem _ hp)
      · intro q hq
        rcases List.mem_cons.mp hq with rfl | hq₂
        · exact dle_trans hle (dle_of_not_lt hlt)
        · exact hmin q hq₂

/-- Rust `Iterator::min` on the mapped `date_of_action` values returns an earliest
`date_of_action`, whenever the list of trades is nonempty. -/
theorem minDateOfAction_spec (trades : List OptionTrade) (hne : trades ≠ []) :
    ∃ m, minDateOfAction trades = some m ∧
      m ∈ trades.map (·.date_of_action) ∧
      ∀ t ∈ trades, m ≤ t.date_of_action := by
  match trades, hne with
  | h :: tl, _ =>
    obtain ⟨m, hfold, hmem, hle, hmin⟩ :=
      minFold_aux (tl.map (·.date_of_action)) h.date_of_action
    refine ⟨m, ?_, ?_, ?_⟩
    · simpa [minDateOfAction] using hfold
    · rcases hmem with rfl | hp
      · exact List.mem_cons_self _ _
      · exact List.mem_cons_of_mem _ hp
    · intro t ht
      rcases List.mem_cons.mp ht with rfl | ht₂
      · exact hle
      · exact hmin t.date_of_action (List.mem_map_of_mem _ ht₂)

/-- The `weeks_running` field, unfolded (definitional). -/
theorem weeks_running_unfold (trades : List OptionTrade) (target : Option ℚ)
    (today : Date) :
    (calculate_campaign_summary trades target today).weeks_running =
      match minDateOfAction trades with
      | some firstDate => rustDiv (today.days - firstDate.days) 7
      | none => 0 := rfl

theorem tdiv_eq_fdiv_of_nonneg {a : Int} (ha : 0 ≤ a) :
    Int.tdiv a 7 = Int.fdiv a 7 :=
  (Int.fdiv_eq_tdiv ha (by norm_num)).symm

/-- C8 (amended): for a nonempty trade list, `weeks_running` is the
toward-zero truncated quotient of the day difference between `today` and the
earliest `date_of_action` by 7 (Rust integer division); this equals the floor
whenever the earliest trade is not in the future, while for a negative day
difference the code truncates toward zero instead of flooring (the claim as
frozen said floor in all cases).  For an empty trade list `weeks_running`
is 0. -/
theorem claim_C8 (trades : List OptionTrade) (target : Option ℚ)
    (today : Date) :
    (trades = [] →
        (calculate_campaign_summary trades target today).weeks_running = 0) ∧
      (trades ≠ [] →
        ∃ m, minDateOfAction trades = some m ∧
          m ∈ trades.map (·.date_of_action) ∧
          (∀ t ∈ trades, m ≤ t.date_of_action) ∧
          (calculate_campaign_summary trades target today).weeks_running =
            Int.tdiv (today.days - m.days) 7 ∧
          (m.days ≤ today.days →
            (calculate_campaign_summary trades target today).weeks_running =
              Int.fdiv (today.days - m.days) 7)) := by
  constructor
  · intro h
    subst h
    rfl
  · intro hne
    obtain ⟨m, hsome, hmem, hmin⟩ := minDateOfAction_spec trades hne
    have hweeks₀ :
        (calculate_campaign_summary trades target today).weeks_running =
          rustDiv (today.days - m.days) 7 := by
      rw [weeks_running_unfold, hsome]
    have hweeks :
        (calculate_campaign_summary trades target today).weeks_running =
          Int.tdiv (today.days - m.days) 7 := hweeks₀.trans rfl
    refine ⟨m, hsome, hmem, hmin, hweeks, ?_⟩
    intro hle
    rw [hweeks, tdiv_eq_fdiv_of_nonneg (by omega)]

/-- A single trade whose `date_of_action` lies three days in the future. -/
def futureDatedTrade : OptionTrade :=
  { id := none
    symbol := "DDD"
    campaign := "DDD"
    action := Action.SellPut
    strike := 10
    delta := 0
    expiration_date := ⟨40⟩
    date_of_action := ⟨3⟩
    number_of_shares := 100
    credit := 1 }

/-- Counterexample to C8 as frozen: with the earliest `date_of_action` three
days after `today`, the code computes 0 weeks (truncation toward zero) while
the claimed floor of −3/7 is −1. -/
theorem claim_C8_counterexample :
    (calculate_campaign_summary [futureDatedTrade] none ⟨0⟩).weeks_running =
        0 ∧
      Int.fdiv ((⟨0⟩ : Date).days - futureDatedTrade.date_of_action.days) 7 =
        -1 ∧
      (0 : Int) ≠ -1 := by decide

/-- Witness for C8 at an empty list and at a singleton two weeks old. -/
theorem claim_C8_witness :
    (calculate_campaign_summary [] none ⟨5⟩).weeks_running = 0 ∧
      (calculate_campaign_summary [sampleSellPut] none ⟨15⟩).weeks_running =
        Int.tdiv ((⟨15⟩ : Date).days - (⟨0⟩ : Date).days) 7 := by
  constructor
  · exact (claim_C8 [] none ⟨5⟩).1 rfl
  · obtain ⟨m, hsome, _, _, htdiv, _⟩ :=
      (claim_C8 [sampleSellPut] none ⟨15⟩).2 (by simp)
    have h₀ : minDateOfAction [sampleSellPut] = some (⟨0⟩ : Date) := by decide
    rw [h₀] at hsome
    have hm : (⟨0⟩ : Date) = m := Option.some.inj hsome
    rw [← hm] at htdiv
    exact htdiv

/-- C7 (amended): the campaign summary is a deterministic function of the
trade list, the target price and the observed current date — two runs that
observe the same date agree — and its break-even, total-credits and running
P&L components do not depend on the observed date at all.  The observed date
itself, however, is read from the process clock inside
`calculate_campaign_summary` (`OffsetDateTime::now_local`), not injected by
the caller (the claim as frozen asserted an injected "now"). -/
theorem claim_C7 (trades : List OptionTrade) (target : Option ℚ)
    (d d₂ : Date) :
    (d = d₂ →
        calculate_campaign_summary trades target d =
          calculate_campaign_summary trades target d₂) ∧
      (calculate_campaign_summary trades target d).break_even =
        (calculate_campaign_summary trades target d₂).break_even ∧
      (calculate_campaign_summary trades target d).total_credits =
        (calculate_campaign_summary trades target d₂).total_credits ∧
      (calculate_campaign_summary trades target d).running_profit_loss =
        (calculate_campaign_summary trades target d₂).running_profit_loss :=
  ⟨fun h => by rw [h], rfl, rfl, rfl⟩

/-- Counterexample to C7 as frozen: the same trade list summarised at two
different observed clock dates yields different outputs (weeks-running 0
versus 1), so the output is not a function of the trade input alone and the
"now" the computation uses is the ambient clock, not an injected input. -/
theorem claim_C7_counterexample :
    (calculate_campaign_summary [sampleSellPut] none ⟨0⟩).weeks_running = 0 ∧
      (calculate_campaign_summary [sampleSellPut] none ⟨7⟩).weeks_running =
        1 ∧
      calculate_campaign_summary [sampleSellPut] none ⟨0⟩ ≠
        calculate_campaign_summary [sampleSellPut] none ⟨7⟩ := by
  refine ⟨by decide, by decide, fun h => ?_⟩
  have hw := congrArg CampaignSummary.weeks_running h
  revert hw
  decide

/-- Witness for C7 at a concrete equal pair of observed dates. -/
theorem claim_C7_witness :
    calculate_campaign_summary [sampleSellPut] none ⟨3⟩ =
      calculate_campaign_summary [sampleSellPut] none ⟨3⟩ :=
  (claim_C7 [sampleSellPut] none ⟨3⟩ ⟨3⟩).1 rfl

theorem startOfWeek_days (d : Date) :
    (startOfWeek d).days = d.days - (d.numberFromMonday - 1) := rfl

theorem endOfWeek_days (d : Date) :
    (endOfWeek d).days = (startOfWeek d).days + 6 := rfl

/-- A trade expiring on the Monday `⟨4⟩` (day 4 since the epoch Thursday). -/
def mondayExpiryTrade : OptionTrade :=
  { id := none
    symbol := "EEE"
    campaign := "EEE"
    action := Action.SellCall
    strike := 20
    delta := 0
    expiration_date := ⟨4⟩
    date_of_action := ⟨0⟩
    number_of_shares := 100
    credit := 1 }

/-- A trade expiring eight days after that Monday. -/
def eightDayTrade : OptionTrade :=
  { id := none
    symbol := "FFF"
    campaign := "FFF"
    action := Action.SellCall
    strike := 20
    delta := 0
    expiration_date := ⟨12⟩
    date_of_action := ⟨0⟩
    number_of_shares := 100
    credit := 1 }

/-- C6: the weekly window runs from Monday of the current week
(`today − (ISO weekday number − 1)` days) through the following Sunday,
inclusive on both ends; a trade expiring on `today` when `today` is that
Monday is included, a trade expiring 8 days after that Monday is excluded,
and the (spec-modelled) weekly premium sums `credit × number_of_shares`
over exactly the trades of that window. -/
theorem claim_C6 (today : Date) (trades : List OptionTrade) :
    (startOfWeek today).days = today.days - (today.numberFromMonday - 1) ∧
      (∀ t, t ∈ trades_in_progress_this_week today trades ↔
          t ∈ trades ∧ startOfWeek today ≤ t.expiration_date ∧
            t.expiration_date ≤ endOfWeek today) ∧
      (today.numberFromMonday = 1 →
        ∀ t ∈ trades, t.expiration_date = today →
          t ∈ trades_in_progress_this_week today trades) ∧
      (∀ t ∈ trades,
        t.expiration_date.days = (startOfWeek today).days + 8 →
          t ∉ trades_in_progress_this_week today trades) ∧
      calculate_weekly_premium today trades =
        ((trades_in_progress_this_week today trades).map tradePremium).sum := by
  have hmem : ∀ t, t ∈ trades_in_progress_this_week today trades ↔
      t ∈ trades ∧ startOfWeek today ≤ t.expiration_date ∧
        t.expiration_date ≤ endOfWeek today := by
    intro t
    simp [trades_in_progress_this_week, List.mem_filter]
  refine ⟨rfl, hmem, ?_, ?_, rfl⟩
  · intro hmon t ht hexp
    rw [hmem]
    refine ⟨ht, ?_, ?_⟩
    · rw [hexp, Date.le_def, startOfWeek_days, hmon]
      omega
    · rw [hexp, Date.le_def, endOfWeek_days, startOfWeek_days, hmon]
      omega
  · intro t _ h8 hin
    rw [hmem] at hin
    obtain ⟨-, -, hle⟩ := hin
    rw [Date.le_def, endOfWeek_days] at hle
    omega

/-- Witness for C6: on the Monday `⟨4⟩`, the trade expiring that day is in
the window and the trade expiring eight days later is not. -/
theorem claim_C6_witness :
    mondayExpiryTrade ∈
        trades_in_progress_this_week ⟨4⟩ [mondayExpiryTrade, eightDayTrade] ∧
      eightDayTrade ∉
        trades_in_progress_this_week ⟨4⟩ [mondayExpiryTrade, eightDayTrade] := by
  constructor
  · exact (claim_C6 ⟨4⟩ [mondayExpiryTrade, eightDayTrade]).2.2.1 (by decide)
      mondayExpiryTrade (by decide) rfl
  · exact (claim_C6 ⟨4⟩ [mondayExpiryTrade, eightDayTrade]).2.2.2.1
      eightDayTrade (by decide) (by decide)

-- ---------------------------------------------------------------------------
-- Row-level unfolding lemmas for the two processors (definitional).
-- ---------------------------------------------------------------------------

theorem processEtradeRow_unfold (today : Date)
    (r0 r1 r2 r3 r4 r5 r6 r7 : String) (rest : List String) :
    processEtradeRow today
        (r0 :: r1 :: r2 :: r3 :: r4 :: r5 :: r6 :: r7 :: rest) =
      (if 6 ≤ (splitWhitespace (trimChars (trimMatchesChar '"' r4.data))).length ∧
          ((splitWhitespace (trimChars (trimMatchesChar '"' r4.data))).getD 1 [] =
              ("Put").data ∨
            (splitWhitespace (trimChars (trimMatchesChar '"' r4.data))).getD 1 [] =
              ("Call").data) then
        match
          actionEtrade ⟨trimChars (trimMatchesChar '"' r1.data)⟩
            ⟨(splitWhitespace (trimChars (trimMatchesChar '"' r4.data))).getD 1 []⟩ with
        | some action =>
          some
            { id := none
              symbol :=
                ⟨(splitWhitespace (trimChars (trimMatchesChar '"' r4.data))).getD 2 []⟩
              campaign :=
                ⟨(splitWhitespace (trimChars (trimMatchesChar '"' r4.data))).getD 2 []⟩
              action := action
              strike :=
                (parseF64
                  ((splitWhitespace (trimChars (trimMatchesChar '"' r4.data))).getD 4 [])).getD 0
              delta := 0
              expiration_date :=
                etradeExpiration today
                  ((splitWhitespace (trimChars (trimMatchesChar '"' r4.data))).getD 3 [])
              date_of_action :=
                (parseEtradeDateTime (trimChars (trimMatchesChar '"' r0.data))).getD today
              number_of_shares :=
                (parseI32
                  ((splitWhitespace (trimChars (trimMatchesChar '"' r4.data))).getD 0 [])).getD 0 * 100
              credit :=
                etradeAmount r7 /
                  ((((parseI32
                      ((splitWhitespace (trimChars (trimMatchesChar '"' r4.data))).getD 0 [])).getD 0 :
                    Int) : ℚ) * 100) }
        | none => none
      else none) := rfl

theorem processRobinhoodRow_of_match (today : Date)
    (r0 r1 r2 r3 r4 r5 r6 r7 r8 : String) (rest : List String)
    (caps : RegexCaps) (h : matchOptionDesc r4 = some caps) :
    processRobinhoodRow today
        (r0 :: r1 :: r2 :: r3 :: r4 :: r5 :: r6 :: r7 :: r8 :: rest) =
      match actionRobinhood r5 (if caps.isCall then ("Call") else ("Put")) with
      | some action =>
        some
          { id := none
            symbol := caps.symbol
            campaign :=
              caps.symbol ++ "_" ++
                toString
                  ((parseDateWithFmt robinhoodDateFmt caps.expStr.data).getD today).days
            action := action
            strike := (parseF64 caps.strikeStr.data).getD 0
            delta := 0
            expiration_date :=
              (parseDateWithFmt robinhoodDateFmt caps.expStr.data).getD today
            date_of_action :=
              (parseDateWithFmt robinhoodDateFmt r0.data).getD today
            number_of_shares :=
              (parseI32 (removeChars [','] r6.data)).getD 0 * 100
            credit :=
              robinhoodAmount r7 r8 /
                ((((parseI32 (removeChars [','] r6.data)).getD 0 : Int) : ℚ) * 100) }
      | none => none := by
  show
    (match matchOptionDesc r4 with
      | some caps =>
        match actionRobinhood r5 (if caps.isCall then ("Call") else ("Put")) with
        | some action =>
          some
            ({ id := none
               symbol := caps.symbol
               campaign :=
                 caps.symbol ++ "_" ++
                   toString
                     ((parseDateWithFmt robinhoodDateFmt caps.expStr.data).getD today).days
               action := action
               strike := (parseF64 caps.strikeStr.data).getD 0
               delta := 0
               expiration_date :=
                 (parseDateWithFmt robinhoodDateFmt caps.expStr.data).getD today
               date_of_action :=
                 (parseDateWithFmt robinhoodDateFmt r0.data).getD today
               number_of_shares :=
                 (parseI32 (removeChars [','] r6.data)).getD 0 * 100
               credit :=
                 robinhoodAmount r7 r8 /
                   ((((parseI32 (removeChars [','] r6.data)).getD 0 : Int) : ℚ) * 100) } :
              OptionTrade)
        | none => none
      | none => none) = _
  rw [h]

theorem runFmt_lits :
    ∀ (cs : List Char) (input : List Char),
      runFmt (cs.map FmtItem.lit) input none none none = none ∨
        runFmt (cs.map FmtItem.lit) input none none none =
          some (none, none, none) := by
  intro cs
  induction cs with
  | nil =>
    intro input
    cases input with
    | nil => exact Or.inr rfl
    | cons a rest => exact Or.inl rfl
  | cons c cs ih =>
    intro input
    cases input with
    | nil => exact Or.inl rfl
    | cons a rest =>
      by_cases hac : a = c
      · have hstep :
            runFmt ((c :: cs).map FmtItem.lit) (a :: rest) none none none =
              runFmt (cs.map FmtItem.lit) rest none none none := by
          simp [runFmt, hac]
        rw [hstep]
        exact ih rest
      · have hstep :
            runFmt ((c :: cs).map FmtItem.lit) (a :: rest) none none none =
              none := by
          simp [runFmt, hac]
        exact Or.inl hstep

/-- The `%m/%d/%Y` literal-only format never parses any input: either a
literal fails to match, or the input is consumed without any year, month or
day component having been produced. -/
theorem robinhoodDateFmt_always_fails (l : List Char) :
    parseDateWithFmt robinhoodDateFmt l = none := by
  rw [parseDateWithFmt, robinhoodDateFmt]
  rcases runFmt_lits (("%m/%d/%Y").data) l with h | h <;> rw [h]

/-- A Robinhood option row whose description embeds the well-formed date
10/18/2024. -/
def robinhoodSampleRow : List String :=
  ["10/15/2024", "10/15/2024", "10/16/2024", "AMD",
    "AMD 10/18/2024 Put $150.00", "STO", "1", "$1.50", "$150.00"]

/-- C3 (code bug): the Robinhood grammar's intended `MM/DD/YYYY` format
parses the embedded date 10/18/2024, but the format string the code builds
(`format_description!("%m/%d/%Y")`, `%`-escapes being literal text to the
`time` crate) parses nothing, so the emitted record's expiration date is the
ambient current date (here day 0) instead of 2024-10-18. -/
theorem claim_C3 :
    (∀ s : String, parseDateWithFmt robinhoodDateFmt s.data = none) ∧
      parseDateWithFmt intendedRobinhoodFmt (("10/18/2024").data) =
        some ⟨daysFromCivil 2024 10 18⟩ ∧
      (processRobinhoodRow ⟨0⟩ robinhoodSampleRow).map (·.expiration_date) =
        some ⟨0⟩ ∧
      (⟨0⟩ : Date) ≠ ⟨daysFromCivil 2024 10 18⟩ := by
  refine ⟨fun s => robinhoodDateFmt_always_fails s.data, by decide, by decide,
    by decide⟩

/-- The Broker A round-trip row of the spec. -/
def etradeSampleRow : List String :=
  ["07/03/25 10:00:00 AM", "Sold", "", "",
    "15 Put NVTS 07/03/25 6.500 @ $0.18", "", "", "$270.00"]

/-- C4: normalizing the Broker A row
`"07/03/25 10:00:00 AM","Sold","","","15 Put NVTS 07/03/25 6.500 @ $0.18","","","$270.00"`
yields a record with symbol NVTS, action SellPut, strike 6.5,
expiration date 2025-07-03, 1500 shares, and per-share credit
`signed amount ÷ (qty × 100) = 270.00 ÷ 1500 = 0.18`. -/
theorem claim_C4 (today : Date) :
    (processEtradeRow today etradeSampleRow).map (·.symbol) =
        some ("NVTS") ∧
      (processEtradeRow today etradeSampleRow).map (·.action) =
        some Action.SellPut ∧
      (processEtradeRow today etradeSampleRow).map (·.strike) =
        some (13 / 2) ∧
      (processEtradeRow today etradeSampleRow).map (·.expiration_date) =
        some ⟨daysFromCivil 2025 7 3⟩ ∧
      (processEtradeRow today etradeSampleRow).map (·.number_of_shares) =
        some 1500 ∧
      (processEtradeRow today etradeSampleRow).map (·.credit) =
        some (etradeAmount ("$270.00") / (((15 : Int) : ℚ) * 100)) ∧
      etradeAmount ("$270.00") / (((15 : Int) : ℚ) * 100) = 9 / 50 := by
  refine ⟨rfl, rfl, ?_, rfl, rfl, rfl, ?_⟩
  · have h :
        (processEtradeRow today etradeSampleRow).map (·.strike) =
          some ((parseF64 (("6.500").data)).getD 0) := rfl
    rw [h]
    have hpd : parseDecimal (("6.500").data) = some ⟨false, 6, 500, 3⟩ := by
      decide
    simp [parseF64, hpd, DecimalRep.toRat]
    norm_num
  · have hclean :
        removeChars (("$,()").data) (("$270.00").data) = ("270.00").data := by
      decide
    have hneg : (("$270.00").data).contains '(' = false := by decide
    have hpd : parseDecimal (("270.00").data) = some ⟨false, 270, 0, 2⟩ := by
      decide
    simp [etradeAmount, hclean, hneg, parseF64, hpd, DecimalRep.toRat]
    norm_num

/-- C9: a Broker B row with transaction code OASGN whose description matches
the option regex yields a record whose action is Assigned, for either
embedded option type. -/
theorem claim_C9 (today : Date) (r0 r1 r2 r3 r4 r6 r7 r8 : String)
    (rest : List String) (caps : RegexCaps)
    (hmatch : matchOptionDesc r4 = some caps) :
    (processRobinhoodRow today
        (r0 :: r1 :: r2 :: r3 :: r4 :: ("OASGN") :: r6 :: r7 :: r8 :: rest)).map
      (·.action) = some Action.Assigned := by
  rw [processRobinhoodRow_of_match today r0 r1 r2 r3 r4 ("OASGN") r6 r7 r8
    rest caps hmatch]
  cases hc : caps.isCall
  · have ha : actionRobinhood ("OASGN") ("Put") = some Action.Assigned := rfl
    rw [if_neg (by simp), ha]
    rfl
  · have ha : actionRobinhood ("OASGN") ("Call") = some Action.Assigned := rfl
    rw [if_pos rfl, ha]
    rfl

/-- Witness for C9 at concrete Put and Call descriptions. -/
theorem claim_C9_witness :
    (processRobinhoodRow ⟨0⟩
          ["10/15/2024", "", "", "AMD", "AMD 10/18/2024 Put $150.00",
            "OASGN", "1", "$0.00", "$0.00"]).map
        (·.action) = some Action.Assigned ∧
      (processRobinhoodRow ⟨0⟩
          ["10/15/2024", "", "", "AMD", "AMD 10/18/2024 Call $150.00",
            "OASGN", "1", "$0.00", "$0.00"]).map
        (·.action) = some Action.Assigned :=
  ⟨claim_C9 ⟨0⟩ ("10/15/2024") ("") ("") ("AMD")
      ("AMD 10/18/2024 Put $150.00") ("1") ("$0.00") ("$0.00") []
      ⟨"AMD", "10/18/2024", false, "150.00"⟩ (by decide),
    claim_C9 ⟨0⟩ ("10/15/2024") ("") ("") ("AMD")
      ("AMD 10/18/2024 Call $150.00") ("1") ("$0.00") ("$0.00") []
      ⟨"AMD", "10/18/2024", true, "150.00"⟩ (by decide)⟩

theorem ieeeDiv_zero_not_finite (a : ℚ) : (ieeeDiv a 0).isFinite = false := by
  rw [ieeeDiv, if_pos rfl]
  split_ifs <;> rfl

/-- C10: in both normalizers, a row that matches the option grammar and the
action mapping but whose quantity field fails integer parsing (defaulting to
0) is still emitted rather than skipped, with `number_of_shares = 0` and the
per-share credit computed by an unguarded division by `0 × 100` — under IEEE
`f64` semantics a non-finite (±∞ or NaN) value. -/
theorem claim_C10 :
    (∀ (today : Date) (r0 r1 r2 r3 r4 r5 r6 r7 : String)
        (rest : List String) (a : Action),
        6 ≤ (splitWhitespace (trimChars (trimMatchesChar '"' r4.data))).length →
        ((splitWhitespace (trimChars (trimMatchesChar '"' r4.data))).getD 1 [] =
            ("Put").data ∨
          (splitWhitespace (trimChars (trimMatchesChar '"' r4.data))).getD 1 [] =
            ("Call").data) →
        parseI32
            ((splitWhitespace (trimChars (trimMatchesChar '"' r4.data))).getD 0 []) =
          none →
        actionEtrade ⟨trimChars (trimMatchesChar '"' r1.data)⟩
            ⟨(splitWhitespace (trimChars (trimMatchesChar '"' r4.data))).getD 1 []⟩ =
          some a →
        (processEtradeRow today
              (r0 :: r1 :: r2 :: r3 :: r4 :: r5 :: r6 :: r7 :: rest)).map
            (·.number_of_shares) = some 0 ∧
          (processEtradeRow today
                (r0 :: r1 :: r2 :: r3 :: r4 :: r5 :: r6 :: r7 :: rest)).map
              (·.credit) =
            some (etradeAmount r7 / (((0 : Int) : ℚ) * 100)) ∧
          (ieeeDiv (etradeAmount r7) (((0 : Int) : ℚ) * 100)).isFinite =
            false) ∧
      ∀ (today : Date) (r0 r1 r2 r3 r4 r5 r6 r7 r8 : String)
        (rest : List String) (caps : RegexCaps) (a : Action),
        matchOptionDesc r4 = some caps →
        parseI32 (removeChars [','] r6.data) = none →
        actionRobinhood r5 (if caps.isCall then ("Call") else ("Put")) = some a →
        (processRobinhoodRow today
              (r0 :: r1 :: r2 :: r3 :: r4 :: r5 :: r6 :: r7 :: r8 :: rest)).map
            (·.number_of_shares) = some 0 ∧
          (processRobinhoodRow today
                (r0 :: r1 :: r2 :: r3 :: r4 :: r5 :: r6 :: r7 :: r8 :: rest)).map
              (·.credit) =
            some (robinhoodAmount r7 r8 / (((0 : Int) : ℚ) * 100)) ∧
          (ieeeDiv (robinhoodAmount r7 r8) (((0 : Int) : ℚ) * 100)).isFinite =
            false := by
  constructor
  · intro today r0 r1 r2 r3 r4 r5 r6 r7 rest a hlen htype hqty haction
    have hzero : (ieeeDiv (etradeAmount r7) (((0 : Int) : ℚ) * 100)).isFinite =
        false := by
      have h0 : (((0 : Int) : ℚ) * 100) = 0 := by norm_num
      rw [h0, ieeeDiv_zero_not_finite]
    refine ⟨?_, ?_, hzero⟩ <;>
      rw [processEtradeRow_unfold, if_pos ⟨hlen, htype⟩, haction, hqty] <;>
      rfl
  · intro today r0 r1 r2 r3 r4 r5 r6 r7 r8 rest caps a hmatch hqty haction
    have hzero :
        (ieeeDiv (robinhoodAmount r7 r8) (((0 : Int) : ℚ) * 100)).isFinite =
          false := by
      have h0 : (((0 : Int) : ℚ) * 100) = 0 := by norm_num
      rw [h0, ieeeDiv_zero_not_finite]
    refine ⟨?_, ?_, hzero⟩ <;>
      rw [processRobinhoodRow_of_match today r0 r1 r2 r3 r4 r5 r6 r7 r8 rest
          caps hmatch, haction, hqty] <;>
      rfl

/-- Witness for C10: an E*TRADE row with quantity `x` and a Robinhood row
with quantity `z`, both otherwise well-formed. -/
theorem claim_C10_witness :
    ((processEtradeRow ⟨0⟩
          ["07/03/25 10:00:00 AM", "Sold", "", "",
            "x Put NVTS 07/03/25 6.500 @ $0.18", "", "", "$270.00"]).map
        (·.number_of_shares) = some 0 ∧
      (processEtradeRow ⟨0⟩
            ["07/03/25 10:00:00 AM", "Sold", "", "",
              "x Put NVTS 07/03/25 6.500 @ $0.18", "", "", "$270.00"]).map
          (·.credit) =
        some (etradeAmount ("$270.00") / (((0 : Int) : ℚ) * 100)) ∧
      (ieeeDiv (etradeAmount ("$270.00")) (((0 : Int) : ℚ) * 100)).isFinite =
        false) ∧
      (processRobinhoodRow ⟨0⟩
            ["10/15/2024", "", "", "AMD", "AMD 10/18/2024 Put $150.00",
              "STO", "z", "$1.50", "$150.00"]).map
          (·.number_of_shares) = some 0 ∧
      (processRobinhoodRow ⟨0⟩
            ["10/15/2024", "", "", "AMD", "AMD 10/18/2024 Put $150.00",
              "STO", "z", "$1.50", "$150.00"]).map
          (·.credit) =
        some (robinhoodAmount ("$1.50") ("$150.00") / (((0 : Int) : ℚ) * 100)) ∧
      (ieeeDiv (robinhoodAmount ("$1.50") ("$150.00"))
          (((0 : Int) : ℚ) * 100)).isFinite = false :=
  ⟨claim_C10.1 ⟨0⟩ ("07/03/25 10:00:00 AM") ("Sold") ("") ("")
      ("x Put NVTS 07/03/25 6.500 @ $0.18") ("") ("") ("$270.00") []
      Action.SellPut (by decide) (by decide) (by decide) (by decide),
    (claim_C10.2 ⟨0⟩ ("10/15/2024") ("") ("") ("AMD")
        ("AMD 10/18/2024 Put $150.00") ("STO") ("z") ("$1.50") ("$150.00") []
        ⟨"AMD", "10/18/2024", false, "150.00"⟩ Action.SellPut (by decide)
        (by decide) (by decide)).1,
    (claim_C10.2 ⟨0⟩ ("10/15/2024") ("") ("") ("AMD")
        ("AMD 10/18/2024 Put $150.00") ("STO") ("z") ("$1.50") ("$150.00") []
        ⟨"AMD", "10/18/2024", false, "150.00"⟩ Action.SellPut (by decide)
        (by decide) (by decide)).2.1,
    (claim_C10.2 ⟨0⟩ ("10/15/2024") ("") ("") ("AMD")
        ("AMD 10/18/2024 Put $150.00") ("STO") ("z") ("$1.50") ("$150.00") []
        ⟨"AMD", "10/18/2024", false, "150.00"⟩ Action.SellPut (by decide)
        (by decide) (by decide)).2.2⟩

example :
    (processEtradeRow ⟨0⟩
        ["07/03/25 10:00:00 AM", "Sold", "", "",
          "15 Put NVTS 07/03/25 6.500 @ $0.18", "", "", "$270.00"]).map
      (·.credit) =
      some (etradeAmount ("$270.00") / (((15 : Int) : ℚ) * 100)) := rfl

example : etradeAmount ("$270.00") = 270 := by
  have hclean :
      removeChars (("$,()").data) (("$270.00").data) = ("270.00").data := by
    decide
  have hneg : (("$270.00").data).contains '(' = false := by decide
  have hpd : parseDecimal (("270.00").data) = some ⟨false, 270, 0, 2⟩ := by
    decide
  simp [etradeAmount, hclean, hneg, parseF64, hpd, DecimalRep.toRat]

example : etradeAmount ("$270.00") / (((15 : Int) : ℚ) * 100) = 9 / 50 := by
  have hclean :
      removeChars (("$,()").data) (("$270.00").data) = ("270.00").data := by
    decide
  have hneg : (("$270.00").data).contains '(' = false := by decide
  have hpd : parseDecimal (("270.00").data) = some ⟨false, 270, 0, 2⟩ := by
    decide
  simp [etradeAmount, hclean, hneg, parseF64, hpd, DecimalRep.toRat]
  norm_num

end ProfitTracker
